import Mathlib

/-!
Verification of the nostr-order-bridge registration server.

The definitions below are a shallow embedding of the registration server
(`server.js` of the bridge): the Bech32-style `npubToHex` decoder, the
in-memory invite store, and the request handlers for `POST /api/invites`,
`GET /api/invites` and `POST /api/register`.  JavaScript strings are
modelled as Lean `String`s, JS exceptions as `Option`/failure results,
JS 32-bit bitwise arithmetic as arithmetic modulo 2^32, and `Date.now()`
timestamps as `Nat` parameters supplied by the caller.
-/

namespace NostrBridge

/-! ## Identity codec: `npubToHex` -/

/-- The fixed 32-character Bech32 alphabet, `CHARSET` in the source. -/
def CHARSET : String := "qpzry9x8gf2tvdw0s3jn54khce6mua7l"

/-- First index of a character in a character list; models JS
`String.prototype.indexOf`, with `none` in place of `-1`. -/
def charIdx : List Char → Char → Option Nat
  | [], _ => none
  | a :: as, c =>
    if a = c then some 0 else
      match charIdx as c with
      | none => none
      | some i => some (i + 1)

/-- The 5-bit value of one data character, `CHARSET.indexOf(c)` in the source. -/
def charVal (c : Char) : Option Nat := charIdx CHARSET.toList c

/-- The first loop of `npubToHex`: map every data character to its 5-bit
value, failing (the JS code throws `Invalid npub character`) if any character
is outside the alphabet. -/
def valuesOf : List Char → Option (List Nat)
  | [] => some []
  | c :: cs =>
    match charVal c, valuesOf cs with
    | some v, some vs => some (v :: vs)
    | _, _ => none

/-- The inner `while (bits >= 8)` loop of `npubToHex`: emit
`(acc >> bits) & 0xff` after `bits -= 8`, as long as at least 8 bits are
pending; returns the emitted bytes and the remaining pending bit count. -/
def emitLoop (acc : Nat) : Nat → List Nat × Nat
  | bits + 8 =>
    let r := emitLoop acc bits
    (acc / 2 ^ bits % 256 :: r.1, r.2)
  | bits => ([], bits)

/-- The 5-bit→8-bit regrouping loop of `npubToHex`.  `acc = (acc << 5) | v`
is JS 32-bit arithmetic, so the accumulator is kept modulo 2^32; the bytes
extracted ever only use bits below position 13, so this is exact. -/
def regroup : List Nat → Nat → Nat → List Nat
  | [], _, _ => []
  | v :: vs, acc, bits =>
    let acc2 := (acc * 32 + v) % 4294967296
    let r := emitLoop acc2 (bits + 5)
    r.1 ++ regroup vs acc2 r.2

/-- `b.toString(16).padStart(2, '0')` for a byte value. -/
def byteToHex (b : Nat) : String :=
  let s := String.mk (Nat.toDigits 16 b)
  if s.length < 2 then "0" ++ s else s

/-- Character-list prefix test. -/
def isPre : List Char → List Char → Bool
  | [], _ => true
  | _ :: _, [] => false
  | a :: as, b :: bs => if a = b then isPre as bs else false

/-- Models JS `String.prototype.startsWith` (by characters). -/
def jsStartsWith (s p : String) : Bool := isPre p.toList s.toList

/-- `npubToHex` from the source.  A `none` result models the thrown
`Invalid npub character` exception; any input without the `npub1` prefix is
returned unchanged. -/
def npubToHex (npub : String) : Option String :=
  if ¬ jsStartsWith npub "npub1" then some npub
  else
    match valuesOf (npub.toList.drop 5) with
    | none => none
    | some values =>
      let payload := values.take (values.length - 6)
      some (String.join ((regroup payload 0 0).map byteToHex))

example : npubToHex "abc" = some "abc" := by decide

/-! ## Spec-side description of the repacking

The spec describes the 5-bit→8-bit step as: concatenate the 5-bit groups
most-significant-bit-first into one bit stream and take its full 8-bit
bytes, discarding leftover bits.  The definitions below state that
directly, as a bit list. -/

/-- The `n`-bit binary expansion of `x` (low `n` bits), most significant
bit first. -/
def bitsOfWidth : Nat → Nat → List Bool
  | 0, _ => []
  | n + 1, x => bitsOfWidth n (x / 2) ++ [x % 2 == 1]

/-- Value of a most-significant-first bit list. -/
def bitsToNat (bs : List Bool) : Nat :=
  bs.foldl (fun a b => 2 * a + (if b then 1 else 0)) 0

/-- Cut a bit stream into full 8-bit bytes, discarding the leftover. -/
def packChunks : List Bool → List Nat
  | b0 :: b1 :: b2 :: b3 :: b4 :: b5 :: b6 :: b7 :: rest =>
    bitsToNat [b0, b1, b2, b3, b4, b5, b6, b7] :: packChunks rest
  | _ => []

/-- Modelled from the spec (§4.1): strip the prefix, map each character to
its 5-bit alphabet value, drop the last 6 values, concatenate the 5-bit
groups most-significant-bit-first, and keep the full 8-bit bytes. -/
def specNpubDecode (s : String) : String :=
  let vals := (s.toList.drop 5).map (fun c => (charVal c).getD 0)
  let payload := vals.take (vals.length - 6)
  String.join ((packChunks (payload.flatMap (bitsOfWidth 5))).map byteToHex)

/-! ### Arithmetic facts about `bitsOfWidth` / `bitsToNat` / `packChunks` -/

theorem bitsOfWidth_length (n x : Nat) : (bitsOfWidth n x).length = n := by
  induction n generalizing x with
  | zero => rfl
  | succ n ih => simp [bitsOfWidth, ih]

theorem bitsOfWidth_mod (n x : Nat) : bitsOfWidth n (x % 2 ^ n) = bitsOfWidth n x := by
  induction n generalizing x with
  | zero => rfl
  | succ n ih =>
    have h1 : x % 2 ^ (n + 1) / 2 = x / 2 % 2 ^ n := by
      rw [pow_succ, mul_comm]
      exact Nat.mod_mul_right_div_self x 2 (2 ^ n)
    have h2 : x % 2 ^ (n + 1) % 2 = x % 2 :=
      Nat.mod_mod_of_dvd x (dvd_pow_self 2 (Nat.succ_ne_zero n))
    simp only [bitsOfWidth, h1, h2, ih]

theorem bitsOfWidth_append (m n x : Nat) :
    bitsOfWidth (m + n) x = bitsOfWidth m (x / 2 ^ n) ++ bitsOfWidth n (x % 2 ^ n) := by
  induction n generalizing x with
  | zero => simp [bitsOfWidth]
  | succ n ih =>
    have h1 : x % 2 ^ (n + 1) / 2 = x / 2 % 2 ^ n := by
      rw [pow_succ, mul_comm]
      exact Nat.mod_mul_right_div_self x 2 (2 ^ n)
    have h2 : x % 2 ^ (n + 1) % 2 = x % 2 :=
      Nat.mod_mod_of_dvd x (dvd_pow_self 2 (Nat.succ_ne_zero n))
    have h3 : x / 2 / 2 ^ n = x / 2 ^ (n + 1) := by
      rw [Nat.div_div_eq_div_mul, pow_succ, mul_comm (2 ^ n) 2, ← Nat.div_div_eq_div_mul]
    calc bitsOfWidth (m + (n + 1)) x
        = bitsOfWidth (m + n) (x / 2) ++ [x % 2 == 1] := by
          simp only [← Nat.add_assoc, bitsOfWidth, Nat.add_eq]
      _ = bitsOfWidth m (x / 2 / 2 ^ n) ++ bitsOfWidth n (x / 2 % 2 ^ n) ++ [x % 2 == 1] := by
          rw [ih]
      _ = bitsOfWidth m (x / 2 ^ (n + 1)) ++ bitsOfWidth (n + 1) (x % 2 ^ (n + 1)) := by
          simp only [bitsOfWidth, h1, h2, h3, List.append_assoc]

theorem bitsToNat_append_bit (bs : List Bool) (b : Bool) :
    bitsToNat (bs ++ [b]) = 2 * bitsToNat bs + (if b then 1 else 0) := by
  simp [bitsToNat, List.foldl_append]

theorem bitsToNat_bitsOfWidth (n x : Nat) : bitsToNat (bitsOfWidth n x) = x % 2 ^ n := by
  induction n generalizing x with
  | zero => simp [bitsToNat, bitsOfWidth, Nat.mod_one]
  | succ n ih =>
    have h1 : x % 2 ^ (n + 1) / 2 = x / 2 % 2 ^ n := by
      rw [pow_succ, mul_comm]
      exact Nat.mod_mul_right_div_self x 2 (2 ^ n)
    have h2 : x % 2 ^ (n + 1) % 2 = x % 2 :=
      Nat.mod_mod_of_dvd x (dvd_pow_self 2 (Nat.succ_ne_zero n))
    have hm : x % 2 = 0 ∨ x % 2 = 1 := Nat.mod_two_eq_zero_or_one x
    simp only [bitsOfWidth, bitsToNat_append_bit, ih]
    rcases hm with h | h <;> simp [h] <;> omega

theorem packChunks_short :
    ∀ bs : List Bool, bs.length < 8 → packChunks bs = []
  | [], _ => rfl
  | [_], _ => rfl
  | [_, _], _ => rfl
  | [_, _, _], _ => rfl
  | [_, _, _, _], _ => rfl
  | [_, _, _, _, _], _ => rfl
  | [_, _, _, _, _, _], _ => rfl
  | [_, _, _, _, _, _, _], _ => rfl
  | _ :: _ :: _ :: _ :: _ :: _ :: _ :: _ :: _, h => by
    simp only [List.length_cons] at h
    omega

theorem packChunks_chunk :
    ∀ l : List Bool, l.length = 8 →
      ∀ t, packChunks (l ++ t) = bitsToNat l :: packChunks t
  | [b0, b1, b2, b3, b4, b5, b6, b7], _, t => rfl
  | [], h, _ => by simp at h
  | [_], h, _ => by simp at h
  | [_, _], h, _ => by simp at h
  | [_, _, _], h, _ => by simp at h
  | [_, _, _, _], h, _ => by simp at h
  | [_, _, _, _, _], h, _ => by simp at h
  | [_, _, _, _, _, _], h, _ => by simp at h
  | [_, _, _, _, _, _, _], h, _ => by simp at h
  | _ :: _ :: _ :: _ :: _ :: _ :: _ :: _ :: _ :: _, h, _ => by
    simp only [List.length_cons] at h
    omega

theorem emitLoop_lt (acc b : Nat) (h : b < 8) : emitLoop acc b = ([], b) := by
  interval_cases b <;> rfl

theorem emitLoop_ge8 (acc b : Nat) (h8 : 8 ≤ b) (h16 : b < 16) :
    emitLoop acc b = ([acc / 2 ^ (b - 8) % 256], b - 8) := by
  obtain ⟨c, rfl⟩ : ∃ c, b = c + 8 := ⟨b - 8, by omega⟩
  have hc : c < 8 := by omega
  simp [emitLoop, emitLoop_lt acc c hc]

theorem bitsOfWidth_mod_ge (n m x : Nat) (h : n ≤ m) :
    bitsOfWidth n (x % 2 ^ m) = bitsOfWidth n x := by
  rw [← bitsOfWidth_mod n (x % 2 ^ m), Nat.mod_mod_of_dvd _ (pow_dvd_pow 2 h),
    bitsOfWidth_mod]

theorem shift_mask (x k : Nat) (h : k + 8 ≤ 32) :
    x % 2 ^ 32 / 2 ^ k % 256 = x / 2 ^ k % 256 := by
  have e2 : ∀ z : Nat, z % 2 ^ (k + 8) / 2 ^ k = z / 2 ^ k % 256 := by
    intro z
    have hp : (2 : Nat) ^ (k + 8) = 2 ^ k * 2 ^ 8 := by rw [pow_add]
    rw [hp, Nat.mod_mul_right_div_self]
    norm_num
  calc x % 2 ^ 32 / 2 ^ k % 256
      = x % 2 ^ 32 % 2 ^ (k + 8) / 2 ^ k := (e2 _).symm
    _ = x % 2 ^ (k + 8) / 2 ^ k := by
        rw [Nat.mod_mod_of_dvd _ (pow_dvd_pow 2 h)]
    _ = x / 2 ^ k % 256 := e2 x

/-- The regrouping loop of the source computes exactly the spec's bit-stream
description: with `bits < 8` pending bits (the low `bits` bits of `acc`),
it emits the byte sequence of the pending bits followed by the 5-bit groups
of the remaining values, chunked into full 8-bit bytes. -/
theorem regroup_spec :
    ∀ (vs : List Nat) (acc bits : Nat), bits < 8 → (∀ v ∈ vs, v < 32) →
      regroup vs acc bits =
        packChunks (bitsOfWidth bits acc ++ vs.flatMap (bitsOfWidth 5))
  | [], acc, bits, hb, _ => by
    have hlen : (bitsOfWidth bits acc ++ ([] : List Nat).flatMap (bitsOfWidth 5)).length < 8 := by
      simp [bitsOfWidth_length, hb]
    rw [packChunks_short _ hlen]
    rfl
  | v :: vs, acc, bits, hb, hv => by
    have hv0 : v < 32 := hv v (List.mem_cons_self v vs)
    have hvs : ∀ w ∈ vs, w < 32 := fun w hw => hv w (List.mem_cons_of_mem v hw)
    have hy : (4294967296 : Nat) = 2 ^ 32 := by norm_num
    have hsplit : bitsOfWidth (bits + 5) (acc * 32 + v) =
        bitsOfWidth bits acc ++ bitsOfWidth 5 v := by
      have h32 : (2 : Nat) ^ 5 = 32 := by norm_num
      have hdiv : (acc * 32 + v) / 2 ^ 5 = acc := by rw [h32]; omega
      have hmod : (acc * 32 + v) % 2 ^ 5 = v := by rw [h32]; omega
      rw [bitsOfWidth_append bits 5, hdiv, hmod]
    by_cases hcase : bits + 5 < 8
    · -- no byte is emitted this round
      have ih := regroup_spec vs ((acc * 32 + v) % 2 ^ 32) (bits + 5) hcase hvs
      have hmod32 : bitsOfWidth (bits + 5) ((acc * 32 + v) % 2 ^ 32) =
          bitsOfWidth (bits + 5) (acc * 32 + v) :=
        bitsOfWidth_mod_ge _ 32 _ (by omega)
      simp only [regroup, hy, emitLoop_lt ((acc * 32 + v) % 2 ^ 32) (bits + 5) hcase,
        List.nil_append, ih, hmod32, hsplit, List.flatMap_cons, List.append_assoc]
    · -- exactly one byte is emitted this round
      have h8 : 8 ≤ bits + 5 := by omega
      have h16 : bits + 5 < 16 := by omega
      obtain ⟨k, hk⟩ : ∃ k, bits + 5 = 8 + k := ⟨bits + 5 - 8, by omega⟩
      have hkk : bits + 5 - 8 = k := by omega
      have ih := regroup_spec vs ((acc * 32 + v) % 2 ^ 32) k (by omega) hvs
      have hmodk : bitsOfWidth k ((acc * 32 + v) % 2 ^ 32) =
          bitsOfWidth k ((acc * 32 + v) % 2 ^ k) := by
        rw [bitsOfWidth_mod_ge k 32 _ (by omega), bitsOfWidth_mod]
      have hhead : (acc * 32 + v) % 2 ^ 32 / 2 ^ k % 256 =
          bitsToNat (bitsOfWidth 8 ((acc * 32 + v) / 2 ^ k)) := by
        rw [bitsToNat_bitsOfWidth, shift_mask _ _ (by omega)]
        norm_num
      have hchunk : packChunks (bitsOfWidth (8 + k) (acc * 32 + v) ++
            vs.flatMap (bitsOfWidth 5)) =
          bitsToNat (bitsOfWidth 8 ((acc * 32 + v) / 2 ^ k)) ::
            packChunks (bitsOfWidth k ((acc * 32 + v) % 2 ^ k) ++
              vs.flatMap (bitsOfWidth 5)) := by
        rw [bitsOfWidth_append 8 k, List.append_assoc,
          packChunks_chunk _ (bitsOfWidth_length 8 _)]
      simp only [regroup, hy, emitLoop_ge8 ((acc * 32 + v) % 2 ^ 32) (bits + 5) h8 h16,
        hkk, List.singleton_append, ih, hmodk, hhead]
      rw [List.flatMap_cons, ← List.append_assoc, ← hsplit, hk, hchunk]

/-! ### Facts about the alphabet lookup and the main decode -/

theorem charIdx_lt (c : Char) :
    ∀ (l : List Char) (v : Nat), charIdx l c = some v → v < l.length := by
  intro l
  induction l with
  | nil => intro v h; simp [charIdx] at h
  | cons a as ih =>
    intro v h
    simp only [charIdx] at h
    by_cases hac : a = c
    · rw [if_pos hac] at h
      cases h
      simp
    · rw [if_neg hac] at h
      cases hrec : charIdx as c with
      | none => rw [hrec] at h; cases h
      | some i =>
        rw [hrec] at h
        cases h
        have := ih i hrec
        simp only [List.length_cons]
        omega

theorem charIdx_eq_none_iff (c : Char) :
    ∀ l : List Char, charIdx l c = none ↔ c ∉ l := by
  intro l
  induction l with
  | nil => simp [charIdx]
  | cons a as ih =>
    by_cases hac : a = c
    · simp [charIdx, hac]
    · cases hrec : charIdx as c with
      | none =>
        have has : c ∉ as := ih.mp hrec
        refine iff_of_true (by simp [charIdx, if_neg hac, hrec]) ?_
        intro hmem
        rcases List.mem_cons.mp hmem with h | h
        · exact hac h.symm
        · exact has h
      | some i =>
        have has : c ∈ as := by
          by_contra hmem
          rw [ih.mpr hmem] at hrec
          cases hrec
        exact iff_of_false (by simp [charIdx, if_neg hac, hrec])
          (fun hno => hno (List.mem_cons_of_mem a has))

theorem charVal_lt (c : Char) (v : Nat) (h : charVal c = some v) : v < 32 := by
  have := charIdx_lt c CHARSET.toList v h
  have hlen : CHARSET.toList.length = 32 := by decide
  omega

theorem charVal_eq_none_iff (c : Char) : charVal c = none ↔ c ∉ CHARSET.toList :=
  charIdx_eq_none_iff c CHARSET.toList

theorem valuesOf_eq_none_iff :
    ∀ cs : List Char, valuesOf cs = none ↔ ∃ c ∈ cs, charVal c = none := by
  intro cs
  induction cs with
  | nil => simp [valuesOf]
  | cons c cs ih =>
    cases hc : charVal c with
    | none =>
      cases hrec : valuesOf cs with
      | none =>
        exact iff_of_true (by simp [valuesOf, hc, hrec])
          ⟨c, List.mem_cons_self c cs, hc⟩
      | some vs =>
        exact iff_of_true (by simp [valuesOf, hc, hrec])
          ⟨c, List.mem_cons_self c cs, hc⟩
    | some v =>
      cases hrec : valuesOf cs with
      | none =>
        obtain ⟨d, hd, hdn⟩ := ih.mp hrec
        exact iff_of_true (by simp [valuesOf, hc, hrec])
          ⟨d, List.mem_cons_of_mem c hd, hdn⟩
      | some vs =>
        refine iff_of_false (by simp [valuesOf, hc, hrec]) ?_
        rintro ⟨d, hd, hdn⟩
        rcases List.mem_cons.mp hd with h | h
        · rw [h, hc] at hdn; cases hdn
        · have hcontr : valuesOf cs = none := ih.mpr ⟨d, h, hdn⟩
          rw [hrec] at hcontr
          cases hcontr

theorem valuesOf_eq_map :
    ∀ cs : List Char, (∀ c ∈ cs, c ∈ CHARSET.toList) →
      valuesOf cs = some (cs.map fun c => (charVal c).getD 0) := by
  intro cs
  induction cs with
  | nil => intro _; rfl
  | cons c cs ih =>
    intro h
    have hc : c ∈ CHARSET.toList := h c (List.mem_cons_self c cs)
    have hcs : ∀ d ∈ cs, d ∈ CHARSET.toList := fun d hd => h d (List.mem_cons_of_mem c hd)
    cases hv : charVal c with
    | none => exact absurd ((charVal_eq_none_iff c).mp hv) (not_not_intro hc)
    | some v => simp [valuesOf, hv, ih hcs]

theorem valuesOf_all_lt :
    ∀ (cs : List Char) (vs : List Nat), valuesOf cs = some vs → ∀ v ∈ vs, v < 32 := by
  intro cs
  induction cs with
  | nil => intro vs h v hv; cases h; cases hv
  | cons c cs ih =>
    intro vs h v hv
    simp only [valuesOf] at h
    cases hc : charVal c with
    | none => rw [hc] at h; cases h
    | some w =>
      rw [hc] at h
      cases hrec : valuesOf cs with
      | none => rw [hrec] at h; cases h
      | some ws =>
        rw [hrec] at h
        cases h
        rcases List.mem_cons.mp hv with hvw | hvm
        · rw [hvw]; exact charVal_lt c w hc
        · exact ih ws hrec v hvm

theorem isPre_cons (a : Char) (pr s : List Char) (h : isPre (a :: pr) s = true) :
    ∃ t, s = a :: t ∧ isPre pr t = true := by
  cases s with
  | nil => simp [isPre] at h
  | cons b t =>
    simp only [isPre] at h
    by_cases hab : a = b
    · rw [if_pos hab] at h
      exact ⟨t, by rw [hab], h⟩
    · rw [if_neg hab] at h
      cases h

/-- C1: decoding the npub of the secp256k1 generator point's public key
yields exactly its hex form and, in general, on any `npub1`-prefixed
identifier whose data characters all lie in the 32-symbol alphabet, the
decoder strips the prefix, maps characters to 5-bit values, drops the last
6 values, and re-packs the rest into bytes most-significant-bit-first,
discarding leftover bits (the spec-level description `specNpubDecode`). -/
theorem npubToHex_generator_and_repack :
    npubToHex "npub10xlxvlhemja6c4dqv22uapctqupfhlxm9h8z3k2e72q4k9hcz7vqpkge6d"
      = some "79be667ef9dcbbac55a06295ce870b07029bfcdb2dce28d959f2815b16f81798" ∧
    ∀ s : String, jsStartsWith s "npub1" = true →
      (∀ c ∈ s.toList.drop 5, c ∈ CHARSET.toList) →
      npubToHex s = some (specNpubDecode s) := by
  constructor
  · decide
  · intro s h1 h2
    have hvals := valuesOf_eq_map (s.toList.drop 5) h2
    have hlt : ∀ v ∈ ((s.toList.drop 5).map fun c => (charVal c).getD 0), v < 32 :=
      fun v hv => valuesOf_all_lt _ _ hvals v hv
    have hltp : ∀ v ∈ (((s.toList.drop 5).map fun c => (charVal c).getD 0).take
        (((s.toList.drop 5).map fun c => (charVal c).getD 0).length - 6)), v < 32 :=
      fun v hv => hlt v (List.take_subset _ _ hv)
    have hre := regroup_spec _ 0 0 (by omega) hltp
    unfold npubToHex specNpubDecode
    rw [if_neg (by simp [h1]), hvals]
    simp only [hre, bitsOfWidth, List.nil_append]

/-- Witness for C1: the theorem applied to the generator point's npub. -/
theorem npubToHex_generator_and_repack_witness :
    npubToHex "npub10xlxvlhemja6c4dqv22uapctqupfhlxm9h8z3k2e72q4k9hcz7vqpkge6d"
      = some (specNpubDecode
          "npub10xlxvlhemja6c4dqv22uapctqupfhlxm9h8z3k2e72q4k9hcz7vqpkge6d") :=
  npubToHex_generator_and_repack.2
    "npub10xlxvlhemja6c4dqv22uapctqupfhlxm9h8z3k2e72q4k9hcz7vqpkge6d"
    (by decide) (by decide)

/-- Hexadecimal digit test (0-9, a-f, A-F). -/
def isHexChar (c : Char) : Bool :=
  c.isDigit || ('a' ≤ c && c ≤ 'f') || ('A' ≤ c && c ≤ 'F')

/-- C9: on every input without the `npub1` prefix — in particular every
64-hex-character string — the decoder is the identity. -/
theorem npubToHex_identity_on_hex :
    (∀ s : String, jsStartsWith s "npub1" = false → npubToHex s = some s) ∧
    (∀ s : String, s.length = 64 → (∀ c ∈ s.toList, isHexChar c = true) →
      npubToHex s = some s) := by
  have base : ∀ s : String, jsStartsWith s "npub1" = false → npubToHex s = some s := by
    intro s h
    simp [npubToHex, h]
  refine ⟨base, fun s _ hhex => ?_⟩
  apply base
  by_contra hne
  have hpre : jsStartsWith s "npub1" = true := by
    cases hsw : jsStartsWith s "npub1" with
    | false => exact absurd hsw hne
    | true => rfl
  obtain ⟨t, ht, _⟩ := isPre_cons 'n' ['p', 'u', 'b', '1'] s.toList hpre
  have hn : 'n' ∈ s.toList := by rw [ht]; exact List.mem_cons_self _ _
  exact absurd (hhex 'n' hn) (by decide)

/-- Witness for C9: a concrete 64-hex-character input is returned unchanged. -/
theorem npubToHex_identity_on_hex_witness :
    npubToHex "79be667ef9dcbbac55a06295ce870b07029bfcdb2dce28d959f2815b16f81798"
      = some "79be667ef9dcbbac55a06295ce870b07029bfcdb2dce28d959f2815b16f81798" :=
  npubToHex_identity_on_hex.2
    "79be667ef9dcbbac55a06295ce870b07029bfcdb2dce28d959f2815b16f81798"
    (by decide) (by decide)

/-! ## Invite store and HTTP handlers

The in-memory invite store `invites` is a map token → record, modelled as
an association list.  `Date.now()` values are supplied as `Nat` parameters,
and the random token / webhook secret (`crypto.randomBytes`) are likewise
parameters since the model is deterministic. -/

/-- One invite record, as created and mutated by the server.  In the JS
object the `usedBy`/`usedAt` fields are initially absent, modelled by
`Option`. -/
structure InviteRecord where
  label : String
  createdAt : Nat
  used : Bool
  usedBy : Option String
  usedAt : Option Nat
deriving DecidableEq, Repr

/-- The `invites` object: token → record. -/
def InviteStore := List (String × InviteRecord)
deriving DecidableEq, Repr

/-- `invites[tok]` lookup. -/
def lookupTok : InviteStore → String → Option InviteRecord
  | [], _ => none
  | p :: ps, t => if p.1 = t then some p.2 else lookupTok ps t

/-- In-place mutation of the record stored under `tok`. -/
def setInvite : InviteStore → String → InviteRecord → InviteStore
  | [], _, _ => []
  | p :: ps, t, r => (if p.1 = t then (p.1, r) else p) :: setInvite ps t r

/-- JS truthiness of an optional string field: absent and `""` are falsy. -/
def truthy : Option String → Bool
  | none => false
  | some s => !(s = "")

/-- `body.x || d` for an optional string field. -/
def jsOr (o : Option String) (d : String) : String :=
  match o with
  | none => d
  | some s => if s = "" then d else s

/-- The parsed JSON body of a `POST /api/register` request. -/
structure RegisterBody where
  invite : Option String
  npub : Option String
  wooUrl : Option String
  storeName : Option String
  email : Option String
deriving DecidableEq, Repr

/-- A JSON response: HTTP status, `error` field if any, and the
success payload fields. -/
structure RegResponse where
  status : Nat
  error : Option String
  webhookUrl : Option String
  webhookSecret : Option String
deriving DecidableEq, Repr

/-- `body.wooUrl.replace(/\x2f$/, '')`: strip one trailing slash. -/
def stripTrailingSlash (s : String) : String :=
  match s.toList.getLast? with
  | some '/' => String.mk s.toList.dropLast
  | _ => s

/-- The fixed well-known webhook path suffix. -/
def webhookPath : String := "/wp-json/woo-nostr-market/v1/order-webhook"

/-- Data carried across the `await registerOnListener(...)` suspension
point inside the `POST /api/register` handler. -/
structure RegCont where
  tok : String
  storeName : Option String
  webhookUrl : String
  secret : String
deriving DecidableEq, Repr

/-- Everything the `POST /api/register` handler does before the downstream
call: invite validation, field validation, npub decoding, length check,
secret generation and webhook-URL construction.  Returns either an error
response (`inl`) or the continuation data for the downstream call (`inr`).
No store mutation happens in this phase, exactly as in the source. -/
def regPhase1 (store : InviteStore) (b : RegisterBody) (secret : String) :
    RegResponse ⊕ RegCont :=
  match b.invite with
  | none => Sum.inl ⟨403, some "Invalid or expired invite", none, none⟩
  | some tok =>
    if tok = "" then Sum.inl ⟨403, some "Invalid or expired invite", none, none⟩
    else
      match lookupTok store tok with
      | none => Sum.inl ⟨403, some "Invalid or expired invite", none, none⟩
      | some r =>
        if r.used then Sum.inl ⟨403, some "Invite already used", none, none⟩
        else if ¬ (truthy b.npub && truthy b.wooUrl && truthy b.storeName) then
          Sum.inl ⟨400, some "Missing required fields: npub, wooUrl, storeName", none, none⟩
        else
          match npubToHex ((b.npub).getD "") with
          | none => Sum.inl ⟨400, some "Invalid npub format", none, none⟩
          | some pubkeyHex =>
            if pubkeyHex.length ≠ 64 then
              Sum.inl ⟨400, some "Invalid npub: decoded key is wrong length", none, none⟩
            else
              Sum.inr ⟨tok, b.storeName,
                stripTrailingSlash ((b.wooUrl).getD "") ++ webhookPath, secret⟩

/-- The part of the handler after a successful downstream call: mark the
invite used and answer 200.  (The token is always present in the store at
this point in any reachable execution; a deleted record would make the JS
assignment throw, which the catch turns into a 500 — modelled likewise.) -/
def regPhase2 (store : InviteStore) (c : RegCont) (now : Nat) :
    InviteStore × RegResponse :=
  match lookupTok store c.tok with
  | some r =>
    (setInvite store c.tok { r with used := true, usedBy := c.storeName, usedAt := some now },
      ⟨200, none, some c.webhookUrl, some c.secret⟩)
  | none => (store, ⟨500, some "Cannot set properties of undefined", none, none⟩)

/-- Outcome of one sequential `POST /api/register` request: the new store,
the response, and whether the downstream collaborator was called. -/
structure RegOutcome where
  store : InviteStore
  resp : RegResponse
  downstreamCalled : Bool
deriving DecidableEq, Repr

/-- One full sequential `POST /api/register` request.  `downstream = none`
means the downstream collaborator acknowledged success; `some msg` means
`registerOnListener` threw with message `msg` (caught, answered 500). -/
def handleRegister (store : InviteStore) (b : RegisterBody)
    (downstream : Option String) (secret : String) (now : Nat) : RegOutcome :=
  match regPhase1 store b secret with
  | Sum.inl resp => ⟨store, resp, false⟩
  | Sum.inr c =>
    match downstream with
    | some msg => ⟨store, ⟨500, some msg, none, none⟩, true⟩
    | none =>
      let sr := regPhase2 store c now
      ⟨sr.1, sr.2, true⟩

/-- The admin authentication check shared by `POST /api/invites` and
`GET /api/invites`: `!auth || auth !== Bearer token` rejects. -/
def authOk (auth : Option String) (token : String) : Bool :=
  match auth with
  | none => false
  | some a => !(a = "") && a = "Bearer " ++ token

/-- Result of `POST /api/invites`. -/
structure CreateResult where
  store : InviteStore
  status : Nat
  error : Option String
  token : Option String
deriving DecidableEq, Repr

/-- The `POST /api/invites` handler: admin auth, then insert a fresh
record with `used = false` (`tok` stands for the random token). -/
def handleCreateInvite (auth : Option String) (adminToken : String)
    (store : InviteStore) (label : Option String) (tok : String) (now : Nat) :
    CreateResult :=
  if authOk auth adminToken then
    ⟨(tok, ⟨jsOr label "", now, false, none, none⟩) :: store, 200, none, some tok⟩
  else ⟨store, 401, some "Unauthorized", none⟩

/-- Result of `GET /api/invites`. -/
structure ListResult where
  status : Nat
  error : Option String
  invites : Option InviteStore
deriving DecidableEq, Repr

/-- The `GET /api/invites` handler: admin auth, then the full store. -/
def handleListInvites (auth : Option String) (adminToken : String)
    (store : InviteStore) : ListResult :=
  if authOk auth adminToken then ⟨200, none, some store⟩
  else ⟨401, some "Unauthorized", none⟩

/-! ### Store and handler lemmas -/

theorem lookupTok_setInvite_self :
    ∀ (s : InviteStore) (tok : String) (r r' : InviteRecord),
      lookupTok s tok = some r → lookupTok (setInvite s tok r') tok = some r'
  | [], tok, r, r', h => by cases h
  | p :: ps, tok, r, r', h => by
    by_cases hp : p.1 = tok
    · simp [lookupTok, setInvite, hp]
    · simp only [lookupTok, setInvite, if_neg hp] at h ⊢
      exact lookupTok_setInvite_self ps tok r r' h

theorem lookupTok_setInvite_other :
    ∀ (s : InviteStore) (tok tok' : String) (r' : InviteRecord), tok' ≠ tok →
      lookupTok (setInvite s tok r') tok' = lookupTok s tok'
  | [], _, _, _, _ => rfl
  | p :: ps, tok, tok', r', h => by
    by_cases hp : p.1 = tok
    · have hne : ¬ p.1 = tok' := by rw [hp]; exact fun he => h he.symm
      simp only [setInvite, if_pos hp, lookupTok, if_neg hne]
      exact lookupTok_setInvite_other ps tok tok' r' h
    · simp only [setInvite, if_neg hp, lookupTok]
      by_cases hq : p.1 = tok'
      · simp [hq]
      · simp only [if_neg hq]
        exact lookupTok_setInvite_other ps tok tok' r' h

/-- Inversion of a successful pre-downstream phase: the request carried a
truthy invite token whose record exists and is unused, all three required
fields are truthy, and the continuation carries that token and store name. -/
theorem regPhase1_inr_inv (s : InviteStore) (b : RegisterBody) (sec : String)
    (c : RegCont) (h : regPhase1 s b sec = Sum.inr c) :
    b.invite = some c.tok ∧ c.tok ≠ "" ∧
      (∃ r, lookupTok s c.tok = some r ∧ r.used = false) ∧
      truthy b.storeName = true ∧ c.storeName = b.storeName ∧ c.secret = sec := by
  unfold regPhase1 at h
  cases hi : b.invite with
  | none => simp only [hi] at h; cases h
  | some tok =>
    simp only [hi] at h
    by_cases ht : tok = ""
    · rw [if_pos ht] at h; cases h
    · rw [if_neg ht] at h
      cases hl : lookupTok s tok with
      | none => simp only [hl] at h; cases h
      | some r =>
        simp only [hl] at h
        by_cases hu : r.used
        · rw [if_pos hu] at h; cases h
        · rw [if_neg hu] at h
          by_cases hf : (truthy b.npub && truthy b.wooUrl && truthy b.storeName) = true
          · rw [if_neg (by simp [hf])] at h
            cases hx : npubToHex ((b.npub).getD "") with
            | none => simp only [hx] at h; cases h
            | some hexs =>
              simp only [hx] at h
              by_cases hlen : hexs.length ≠ 64
              · rw [if_pos hlen] at h; cases h
              · rw [if_neg hlen] at h
                cases h
                refine ⟨rfl, ht, ⟨r, hl, by simp [hu]⟩, ?_, rfl, rfl⟩
                simp only [Bool.and_eq_true] at hf
                exact hf.2
          · rw [if_pos (by simp [hf])] at h
            cases h

/-- If the pre-downstream phase fails, the whole request answers with that
error, does not call downstream, and leaves the store untouched. -/
theorem handleRegister_inl (s : InviteStore) (b : RegisterBody)
    (d : Option String) (sec : String) (now : Nat) (resp : RegResponse)
    (h : regPhase1 s b sec = Sum.inl resp) :
    handleRegister s b d sec now = ⟨s, resp, false⟩ := by
  simp [handleRegister, h]

/-- Every pre-downstream error response carries status 403 or 400. -/
theorem regPhase1_inl_status (s : InviteStore) (b : RegisterBody) (sec : String)
    (resp : RegResponse) (h : regPhase1 s b sec = Sum.inl resp) :
    resp.status = 403 ∨ resp.status = 400 := by
  unfold regPhase1 at h
  cases hi : b.invite with
  | none => simp only [hi] at h; cases h; left; rfl
  | some tok =>
    simp only [hi] at h
    by_cases ht : tok = ""
    · rw [if_pos ht] at h; cases h; left; rfl
    · rw [if_neg ht] at h
      cases hl : lookupTok s tok with
      | none => simp only [hl] at h; cases h; left; rfl
      | some r =>
        simp only [hl] at h
        by_cases hu : r.used
        · rw [if_pos hu] at h; cases h; left; rfl
        · rw [if_neg hu] at h
          by_cases hf : (truthy b.npub && truthy b.wooUrl && truthy b.storeName) = true
          · rw [if_neg (by simp [hf])] at h
            cases hx : npubToHex ((b.npub).getD "") with
            | none => simp only [hx] at h; cases h; right; rfl
            | some hexs =>
              simp only [hx] at h
              by_cases hlen : hexs.length ≠ 64
              · rw [if_pos hlen] at h; cases h; right; rfl
              · rw [if_neg hlen] at h; cases h
          · rw [if_pos (by simp [hf])] at h; cases h; right; rfl

/-- C4: every failed `POST /api/register` request — invalid invite, used
invite, missing field, bad or wrong-length identifier, or downstream
failure — leaves the invite store exactly as it was, so the same token can
be resubmitted. -/
theorem register_failure_leaves_store (s : InviteStore) (b : RegisterBody)
    (d : Option String) (sec : String) (now : Nat)
    (h : (handleRegister s b d sec now).resp.status ≠ 200) :
    (handleRegister s b d sec now).store = s ∧
    ∀ tok r, b.invite = some tok → lookupTok s tok = some r →
      lookupTok (handleRegister s b d sec now).store tok = some r := by
  have hstore : (handleRegister s b d sec now).store = s := by
    unfold handleRegister at h ⊢
    cases hp : regPhase1 s b sec with
    | inl resp => simp [hp]
    | inr c =>
      simp only [hp] at h ⊢
      cases d with
      | some msg => rfl
      | none =>
        unfold regPhase2 at h ⊢
        cases hl : lookupTok s c.tok with
        | some r => simp [hl] at h
        | none => simp [hl]
  exact ⟨hstore, fun tok r _ hr => by rw [hstore]; exact hr⟩

/-- Witness for C4: a request with an unknown invite token fails with 403
and leaves a concrete one-invite store unchanged. -/
theorem register_failure_leaves_store_witness :
    (handleRegister [("tok1", ⟨"lbl", 3, false, none, none⟩)]
        ⟨some "nope", some "pk", some "https://example.com", some "Shop", none⟩
        none "sec" 7).resp.status ≠ 200 ∧
    (handleRegister [("tok1", ⟨"lbl", 3, false, none, none⟩)]
        ⟨some "nope", some "pk", some "https://example.com", some "Shop", none⟩
        none "sec" 7).store = [("tok1", ⟨"lbl", 3, false, none, none⟩)] :=
  ⟨by decide,
    (register_failure_leaves_store [("tok1", ⟨"lbl", 3, false, none, none⟩)]
      ⟨some "nope", some "pk", some "https://example.com", some "Shop", none⟩
      none "sec" 7 (by decide)).1⟩

/-- A downstream failure is answered 500 with the store untouched. -/
theorem handleRegister_downstream_fail (s : InviteStore) (b : RegisterBody)
    (msg sec : String) (now : Nat) (c : RegCont)
    (hp : regPhase1 s b sec = Sum.inr c) :
    handleRegister s b (some msg) sec now =
      ⟨s, ⟨500, some msg, none, none⟩, true⟩ := by
  simp [handleRegister, hp]

/-- A fully successful request marks the record under the continuation's
token used and answers 200. -/
theorem handleRegister_success_store (s : InviteStore) (b : RegisterBody)
    (sec : String) (now : Nat) (c : RegCont) (rc : InviteRecord)
    (hp : regPhase1 s b sec = Sum.inr c) (hlc : lookupTok s c.tok = some rc) :
    handleRegister s b none sec now =
      ⟨setInvite s c.tok { rc with used := true, usedBy := c.storeName, usedAt := some now },
        ⟨200, none, some c.webhookUrl, some c.secret⟩, true⟩ := by
  simp [handleRegister, hp, regPhase2, hlc]

/-- After a successful request the targeted record is marked used. -/
theorem handleRegister_success_marks (s : InviteStore) (b : RegisterBody)
    (d : Option String) (sec : String) (now : Nat) (tok : String)
    (hi : b.invite = some tok)
    (h200 : (handleRegister s b d sec now).resp.status = 200) :
    ∃ r', lookupTok (handleRegister s b d sec now).store tok = some r' ∧
      r'.used = true ∧ r'.usedBy = b.storeName ∧ r'.usedAt = some now := by
  cases hp : regPhase1 s b sec with
  | inl resp =>
    rw [handleRegister_inl s b d sec now resp hp] at h200 ⊢
    rcases regPhase1_inl_status s b sec resp hp with h4 | h4 <;> rw [h4] at h200 <;> cases h200
  | inr c =>
    obtain ⟨hbi, -, ⟨r, hl, -⟩, -, hsn, -⟩ := regPhase1_inr_inv s b sec c hp
    have htok : tok = c.tok := by rw [hi] at hbi; exact (Option.some.inj hbi)
    cases d with
    | some msg =>
      rw [handleRegister_downstream_fail s b msg sec now c hp] at h200
      cases h200
    | none =>
      rw [handleRegister_success_store s b sec now c r hp hl]
      refine ⟨{ r with used := true, usedBy := c.storeName, usedAt := some now }, ?_, rfl, ?_, rfl⟩
      · rw [htok]
        exact lookupTok_setInvite_self s c.tok r _ hl
      · rw [hsn]

/-- C3: invite consumption is at-most-once and terminal.  A successful
registration marks the token used; a used token is rejected with
`Invite already used` with no store change and no downstream call; the
store is mutated only when the downstream call succeeded; and neither a
later registration nor a fresh invite creation ever resets a consumed
record. -/
theorem invite_consumption_terminal (s : InviteStore) (b : RegisterBody)
    (d : Option String) (sec : String) (now : Nat) :
    (∀ tok, b.invite = some tok → (handleRegister s b d sec now).resp.status = 200 →
      ∃ r', lookupTok (handleRegister s b d sec now).store tok = some r' ∧ r'.used = true) ∧
    (∀ tok r, b.invite = some tok → tok ≠ "" → lookupTok s tok = some r → r.used = true →
      handleRegister s b d sec now =
        ⟨s, ⟨403, some "Invite already used", none, none⟩, false⟩) ∧
    (∀ msg, d = some msg → (handleRegister s b d sec now).store = s) ∧
    (∀ tok r, lookupTok s tok = some r → r.used = true →
      ∃ r', lookupTok (handleRegister s b d sec now).store tok = some r' ∧ r'.used = true) ∧
    (∀ tok r tok' rec, lookupTok s tok = some r → lookupTok s tok' = none →
      lookupTok ((tok', rec) :: s) tok = some r) := by
  refine ⟨?_, ?_, ?_, ?_, ?_⟩
  · intro tok hi h200
    obtain ⟨r', hr', hu, -, -⟩ := handleRegister_success_marks s b d sec now tok hi h200
    exact ⟨r', hr', hu⟩
  · intro tok r hi ht hl hu
    have hp : regPhase1 s b sec = Sum.inl ⟨403, some "Invite already used", none, none⟩ := by
      unfold regPhase1
      simp only [hi, if_neg ht, hl, hu, if_true]
    exact handleRegister_inl s b d sec now _ hp
  · intro msg hd
    subst hd
    cases hp : regPhase1 s b sec with
    | inl resp => rw [handleRegister_inl s b _ sec now resp hp]
    | inr c => rw [handleRegister_downstream_fail s b msg sec now c hp]
  · intro tok r hl hu
    cases hp : regPhase1 s b sec with
    | inl resp =>
      rw [handleRegister_inl s b d sec now resp hp]
      exact ⟨r, hl, hu⟩
    | inr c =>
      obtain ⟨-, -, ⟨rc, hlc, hucf⟩, -, -, -⟩ := regPhase1_inr_inv s b sec c hp
      have hne : tok ≠ c.tok := by
        intro he
        rw [he, hlc] at hl
        cases hl
        rw [hucf] at hu
        cases hu
      cases d with
      | some msg =>
        rw [handleRegister_downstream_fail s b msg sec now c hp]
        exact ⟨r, hl, hu⟩
      | none =>
        rw [handleRegister_success_store s b sec now c rc hp hlc]
        refine ⟨r, ?_, hu⟩
        rw [lookupTok_setInvite_other s c.tok tok _ hne]
        exact hl
  · intro tok r tok' rec hl hfresh
    have hne : tok' ≠ tok := by
      intro he
      rw [he, hl] at hfresh
      cases hfresh
    simp only [lookupTok, if_neg hne]
    exact hl

/-- Witness for C3: on a concrete store whose single invite is consumed, a
second registration attempt with the same token is rejected as already
used, unchanged and without a downstream call. -/
theorem invite_consumption_terminal_witness :
    handleRegister [("tok1", ⟨"lbl", 3, true, some "Shop", some 5⟩)]
        ⟨some "tok1", some "pk", some "https://example.com", some "Shop", none⟩
        none "sec" 9 =
      ⟨[("tok1", ⟨"lbl", 3, true, some "Shop", some 5⟩)],
        ⟨403, some "Invite already used", none, none⟩, false⟩ :=
  (invite_consumption_terminal [("tok1", ⟨"lbl", 3, true, some "Shop", some 5⟩)]
      ⟨some "tok1", some "pk", some "https://example.com", some "Shop", none⟩
      none "sec" 9).2.1 "tok1" ⟨"lbl", 3, true, some "Shop", some 5⟩
    rfl (by decide) (by decide) rfl

/-- C6: the decoder throws exactly on an `npub1`-prefixed input with a
character outside the alphabet, and a decoded key whose hex form is not 64
characters is rejected as an invalid identifier before any secret is used
or the downstream collaborator is called, with the store untouched. -/
theorem invalid_identifier_rejection :
    (∀ s : String, npubToHex s = none ↔
      jsStartsWith s "npub1" = true ∧ ∃ c ∈ s.toList.drop 5, c ∉ CHARSET.toList) ∧
    (∀ (st : InviteStore) (b : RegisterBody) (d : Option String) (sec : String)
        (now : Nat) (tok : String) (r : InviteRecord) (hexs : String),
      b.invite = some tok → tok ≠ "" → lookupTok st tok = some r → r.used = false →
      (truthy b.npub && truthy b.wooUrl && truthy b.storeName) = true →
      npubToHex ((b.npub).getD "") = some hexs → hexs.length ≠ 64 →
      handleRegister st b d sec now =
        ⟨st, ⟨400, some "Invalid npub: decoded key is wrong length", none, none⟩, false⟩) := by
  constructor
  · intro s
    by_cases hsw : jsStartsWith s "npub1" = true
    · rw [npubToHex, if_neg (by simp [hsw])]
      cases hv : valuesOf (s.toList.drop 5) with
      | none =>
        refine iff_of_true rfl ⟨hsw, ?_⟩
        obtain ⟨c, hc, hcn⟩ := (valuesOf_eq_none_iff _).mp hv
        exact ⟨c, hc, (charVal_eq_none_iff c).mp hcn⟩
      | some vals =>
        refine iff_of_false (by simp) ?_
        rintro ⟨-, c, hc, hcn⟩
        have : valuesOf (s.toList.drop 5) = none :=
          (valuesOf_eq_none_iff _).mpr ⟨c, hc, (charVal_eq_none_iff c).mpr hcn⟩
        rw [hv] at this
        cases this
    · have hf : ¬ jsStartsWith s "npub1" := by simpa using hsw
      rw [npubToHex, if_pos hf]
      exact iff_of_false (by simp) (fun hcon => hsw hcon.1)
  · intro st b d sec now tok r hexs hi ht hl hu hfields hx hlen
    have hp : regPhase1 st b sec =
        Sum.inl ⟨400, some "Invalid npub: decoded key is wrong length", none, none⟩ := by
      unfold regPhase1
      simp only [hi, if_neg ht, hl, hu, Bool.false_eq_true, if_false, hx, if_pos hlen]
      rw [if_neg (by simp [hfields])]
    exact handleRegister_inl st b d sec now _ hp

/-- Witness for C6: a valid-charset npub decoding to one byte (hex length
2, not 64) is rejected with the wrong-length error on a concrete unused
invite, with no downstream call. -/
theorem invalid_identifier_rejection_witness :
    handleRegister [("tok1", ⟨"", 0, false, none, none⟩)]
        ⟨some "tok1", some "npub1qqqqqqqqq", some "https://example.com", some "Shop", none⟩
        none "sec" 7 =
      ⟨[("tok1", ⟨"", 0, false, none, none⟩)],
        ⟨400, some "Invalid npub: decoded key is wrong length", none, none⟩, false⟩ :=
  invalid_identifier_rejection.2 [("tok1", ⟨"", 0, false, none, none⟩)]
    ⟨some "tok1", some "npub1qqqqqqqqq", some "https://example.com", some "Shop", none⟩
    none "sec" 7 "tok1" ⟨"", 0, false, none, none⟩ "00"
    rfl (by decide) (by decide) rfl (by decide) (by decide) (by decide)

/-- The first of `npub`, `wooUrl`, `storeName` that is missing (falsy), in
the order the source checks them. -/
def firstMissing (b : RegisterBody) : Option String :=
  if truthy b.npub = false then some "npub"
  else if truthy b.wooUrl = false then some "wooUrl"
  else if truthy b.storeName = false then some "storeName"
  else none

/-- C7: a registration with a valid unused invite but a missing `npub`,
`wooUrl` or `storeName` fails with the missing-fields error — whose message
names the first missing field — without any downstream call and with the
store untouched. -/
theorem missing_field_rejection (st : InviteStore) (b : RegisterBody)
    (d : Option String) (sec : String) (now : Nat) (tok : String) (r : InviteRecord)
    (hi : b.invite = some tok) (ht : tok ≠ "") (hl : lookupTok st tok = some r)
    (hu : r.used = false)
    (hmiss : truthy b.npub = false ∨ truthy b.wooUrl = false ∨ truthy b.storeName = false) :
    handleRegister st b d sec now =
      ⟨st, ⟨400, some "Missing required fields: npub, wooUrl, storeName", none, none⟩, false⟩ ∧
    ∀ f, firstMissing b = some f →
      ∃ l t, ("Missing required fields: npub, wooUrl, storeName").toList =
        l ++ f.toList ++ t := by
  constructor
  · have hp : regPhase1 st b sec =
        Sum.inl ⟨400, some "Missing required fields: npub, wooUrl, storeName", none, none⟩ := by
      unfold regPhase1
      simp only [hi, if_neg ht, hl, hu, Bool.false_eq_true, if_false]
      rw [if_pos]
      rcases hmiss with h | h | h <;> simp [h]
    exact handleRegister_inl st b d sec now _ hp
  · intro f hf
    unfold firstMissing at hf
    by_cases h1 : truthy b.npub = false
    · rw [if_pos h1] at hf
      cases hf
      exact ⟨"Missing required fields: ".toList, ", wooUrl, storeName".toList, by decide⟩
    · rw [if_neg h1] at hf
      by_cases h2 : truthy b.wooUrl = false
      · rw [if_pos h2] at hf
        cases hf
        exact ⟨"Missing required fields: npub, ".toList, ", storeName".toList, by decide⟩
      · rw [if_neg h2] at hf
        by_cases h3 : truthy b.storeName = false
        · rw [if_pos h3] at hf
          cases hf
          exact ⟨"Missing required fields: npub, wooUrl, ".toList, [], by decide⟩
        · rw [if_neg h3] at hf
          cases hf

/-- Witness for C7: a request with a valid unused invite and a missing
`wooUrl` on a concrete store is answered with the missing-fields error and
no downstream call. -/
theorem missing_field_rejection_witness :
    handleRegister [("tok1", ⟨"", 0, false, none, none⟩)]
        ⟨some "tok1", some "pk", none, some "Shop", none⟩ none "sec" 7 =
      ⟨[("tok1", ⟨"", 0, false, none, none⟩)],
        ⟨400, some "Missing required fields: npub, wooUrl, storeName", none, none⟩,
        false⟩ :=
  (missing_field_rejection [("tok1", ⟨"", 0, false, none, none⟩)]
    ⟨some "tok1", some "pk", none, some "Shop", none⟩ none "sec" 7
    "tok1" ⟨"", 0, false, none, none⟩ rfl (by decide) (by decide) rfl
    (Or.inr (Or.inl rfl))).1

/-- The admin check accepts exactly the header `Bearer ` ++ token. -/
theorem authOk_iff (auth : Option String) (token : String) :
    authOk auth token = true ↔ auth = some ("Bearer " ++ token) := by
  have hne : "Bearer " ++ token ≠ "" := by
    intro he
    have hdata := congrArg String.data he
    simp [String.data_append] at hdata
  cases auth with
  | none => simp [authOk]
  | some a =>
    simp only [authOk, Bool.and_eq_true, Option.some.injEq]
    constructor
    · rintro ⟨-, h2⟩
      simpa using h2
    · intro h
      subst h
      simp [hne]

/-- C8: `POST /api/invites` with an absent or not-exactly-matching
`Authorization` header is answered `Unauthorized`, whatever the body
(label) is, and the store is untouched; the comparison is exact string
equality with `Bearer ` ++ admin token. -/
theorem create_invite_unauthorized (auth : Option String) (token : String)
    (store : InviteStore) (label : Option String) (tok : String) (now : Nat)
    (h : auth ≠ some ("Bearer " ++ token)) :
    handleCreateInvite auth token store label tok now =
      ⟨store, 401, some "Unauthorized", none⟩ := by
  have hfalse : authOk auth token = false := by
    cases hv : authOk auth token
    · rfl
    · exact absurd ((authOk_iff auth token).mp hv) h
  simp [handleCreateInvite, hfalse]

/-- Witness for C8: a concrete wrong bearer header is rejected with 401 and
an unchanged store. -/
theorem create_invite_unauthorized_witness :
    handleCreateInvite (some "Bearer wrong") "secret" [] (some "lbl") "t0" 4 =
      ⟨[], 401, some "Unauthorized", none⟩ :=
  create_invite_unauthorized (some "Bearer wrong") "secret" [] (some "lbl") "t0" 4
    (by decide)

/-- C10: both admin endpoints accept a request exactly when the
`Authorization` header equals `Bearer ` ++ configured token; with the
default empty token the bare header `Bearer ` is accepted. -/
theorem admin_auth_bearer_exact :
    (∀ (auth : Option String) (token : String),
      authOk auth token = true ↔ auth = some ("Bearer " ++ token)) ∧
    authOk (some "Bearer ") "" = true ∧
    (∀ (auth : Option String) (token : String) (store : InviteStore)
        (label : Option String) (tok : String) (now : Nat),
      (handleCreateInvite auth token store label tok now).status = 200 ↔
        auth = some ("Bearer " ++ token)) ∧
    (∀ (auth : Option String) (token : String) (store : InviteStore),
      (handleListInvites auth token store).status = 200 ↔
        auth = some ("Bearer " ++ token)) := by
  refine ⟨authOk_iff, by decide, ?_, ?_⟩
  · intro auth token store label tok now
    cases hv : authOk auth token with
    | false =>
      have hne : auth ≠ some ("Bearer " ++ token) := by
        intro he
        rw [(authOk_iff auth token).mpr he] at hv
        cases hv
      simp [handleCreateInvite, hv, hne]
    | true =>
      have he : auth = some ("Bearer " ++ token) := (authOk_iff auth token).mp hv
      rw [he] at hv
      simp [handleCreateInvite, hv, he]
  · intro auth token store
    cases hv : authOk auth token with
    | false =>
      have hne : auth ≠ some ("Bearer " ++ token) := by
        intro he
        rw [(authOk_iff auth token).mpr he] at hv
        cases hv
      simp [handleListInvites, hv, hne]
    | true =>
      have he : auth = some ("Bearer " ++ token) := (authOk_iff auth token).mp hv
      rw [he] at hv
      simp [handleListInvites, hv, he]

/-! ## Interleaved requests: concurrency model for `POST /api/register`

The handler is `async` and suspends at `await registerOnListener(...)`,
i.e. between reading `invites[tok].used` and writing it back.  Each
in-flight request is a two-phase process over the shared store, and a
scheduler chooses the interleaving.  The downstream collaborator is
assumed to acknowledge success; each completed phase 1 counts one
downstream call. -/

/-- State of one in-flight `POST /api/register` request. -/
inductive ProcState where
  | ready (b : RegisterBody) (secret : String)
  | awaiting (c : RegCont)
  | done (resp : RegResponse)
deriving DecidableEq, Repr

/-- Shared server state plus the in-flight requests. -/
structure Sys where
  store : InviteStore
  downstreamCalls : Nat
  procs : List ProcState
deriving DecidableEq, Repr

/-- Run one atomic step of request `i`: phase 1 (all checks, ending by
issuing the downstream call) or phase 2 (mark used, respond 200). -/
def sysStep (sys : Sys) (i : Nat) (now : Nat) : Sys :=
  match sys.procs[i]? with
  | some (ProcState.ready b sec) =>
    match regPhase1 sys.store b sec with
    | Sum.inl resp => { sys with procs := sys.procs.set i (ProcState.done resp) }
    | Sum.inr c =>
      { sys with
        procs := sys.procs.set i (ProcState.awaiting c)
        downstreamCalls := sys.downstreamCalls + 1 }
  | some (ProcState.awaiting c) =>
    let sr := regPhase2 sys.store c now
    { sys with store := sr.1, procs := sys.procs.set i (ProcState.done sr.2) }
  | _ => sys

/-- Run a schedule of request steps. -/
def runSched (now : Nat) : Sys → List Nat → Sys
  | sys, [] => sys
  | sys, i :: rest => runSched now (sysStep sys i now) rest

/-- Status of request `i`, once finished. -/
def procStatus (sys : Sys) (i : Nat) : Option Nat :=
  match sys.procs[i]? with
  | some (ProcState.done r) => some r.status
  | _ => none

/-- The registration request both racers send. -/
def raceBody : RegisterBody :=
  ⟨some "tok1",
    some "aaaaaaaaaaaaaaaaaaaaaaaaaaaaaaaaaaaaaaaaaaaaaaaaaaaaaaaaaaaaaaaa",
    some "https://shop.example", some "Shop", none⟩

/-- Initial state: one fresh invite, two identical registration requests. -/
def raceSys : Sys :=
  ⟨[("tok1", ⟨"", 0, false, none, none⟩)], 0,
    [ProcState.ready raceBody "s1", ProcState.ready raceBody "s2"]⟩

/-- C2 (evaluation of the code on the failing interleaving): when both
requests pass the `used` check before either marks the invite, BOTH are
answered 200 and the downstream collaborator is called twice — the
exactly-one-succeeds / at-most-one-downstream-call property does not hold
of the implementation. -/
theorem concurrent_register_race_double_success :
    procStatus (runSched 7 raceSys [0, 1, 0, 1]) 0 = some 200 ∧
    procStatus (runSched 7 raceSys [0, 1, 0, 1]) 1 = some 200 ∧
    (runSched 7 raceSys [0, 1, 0, 1]).downstreamCalls = 2 := by decide

/-! ## Reachable stores and the record invariant -/

/-- Invite stores reachable by the server: the store starts empty, time
never moves backwards, records are created only by the admin endpoint
(with a fresh random token) and mutated only by registration requests. -/
inductive Reachable : Nat → InviteStore → Prop where
  | init : Reachable 0 []
  | tick {t t' : Nat} {s : InviteStore} :
      Reachable t s → t ≤ t' → Reachable t' s
  | create {t : Nat} {s : InviteStore}
      (auth : Option String) (adminTok : String) (label : Option String) (tok : String) :
      Reachable t s → lookupTok s tok = none →
      Reachable t (handleCreateInvite auth adminTok s label tok t).store
  | register {t : Nat} {s : InviteStore}
      (b : RegisterBody) (d : Option String) (sec : String) :
      Reachable t s → Reachable t (handleRegister s b d sec t).store

/-- A truthy optional string is a `some`. -/
theorem truthy_some (o : Option String) (h : truthy o = true) : ∃ u, o = some u := by
  cases o with
  | none => cases h
  | some u => exact ⟨u, rfl⟩

/-- The full record invariant, including the time bounds needed for the
induction. -/
theorem reachable_storeInv {t : Nat} {s : InviteStore} (h : Reachable t s) :
    ∀ tok r, lookupTok s tok = some r →
      r.createdAt ≤ t ∧
      (r.used = true →
        (∃ u, r.usedBy = some u) ∧
        ∃ ua, r.usedAt = some ua ∧ r.createdAt ≤ ua ∧ ua ≤ t) ∧
      (r.used = false → r.usedBy = none ∧ r.usedAt = none) := by
  induction h with
  | init => intro tok r hr; cases hr
  | tick hre hle ih =>
    intro tok r hr
    obtain ⟨h1, h2, h3⟩ := ih tok r hr
    refine ⟨le_trans h1 hle, fun hu => ?_, h3⟩
    obtain ⟨hby, ua, hua, hc, hut⟩ := h2 hu
    exact ⟨hby, ua, hua, hc, le_trans hut hle⟩
  | create auth adminTok label tok' hre hfresh ih =>
    intro tok r hr
    rename_i t' s'
    by_cases hauth : authOk auth adminTok = true
    · rw [show (handleCreateInvite auth adminTok s' label tok' t').store =
          (tok', ⟨jsOr label "", t', false, none, none⟩) :: s' from by
        simp [handleCreateInvite, hauth]] at hr
      by_cases he : tok' = tok
      · simp only [lookupTok, he, if_pos rfl] at hr
        cases hr
        exact ⟨le_refl _, fun hu => absurd hu Bool.false_ne_true, fun _ => ⟨rfl, rfl⟩⟩
      · simp only [lookupTok, if_neg he] at hr
        exact ih tok r hr
    · rw [show (handleCreateInvite auth adminTok s' label tok' t').store = s' from by
        simp [handleCreateInvite, hauth]] at hr
      exact ih tok r hr
  | register b d sec hre ih =>
    intro tok r hr
    rename_i t' s'
    cases hp : regPhase1 s' b sec with
    | inl resp =>
      rw [handleRegister_inl s' b d sec t' resp hp] at hr
      exact ih tok r hr
    | inr c =>
      obtain ⟨-, -, ⟨rc, hlc, hucf⟩, hsn, hcs, -⟩ := regPhase1_inr_inv s' b sec c hp
      cases d with
      | some msg =>
        rw [handleRegister_downstream_fail s' b msg sec t' c hp] at hr
        exact ih tok r hr
      | none =>
        rw [handleRegister_success_store s' b sec t' c rc hp hlc] at hr
        by_cases he : tok = c.tok
        · rw [he, lookupTok_setInvite_self s' c.tok rc _ hlc] at hr
          cases hr
          obtain ⟨hct, -, -⟩ := ih c.tok rc hlc
          obtain ⟨u, hu⟩ := truthy_some b.storeName hsn
          refine ⟨hct, fun _ => ⟨⟨u, by rw [hcs, hu]⟩, t', rfl, hct, le_refl _⟩,
            fun hff => by cases hff⟩
        · rw [lookupTok_setInvite_other s' c.tok tok _ he] at hr
          exact ih tok r hr

/-- C5: in every reachable invite store, a record with `used = true` has
both `usedBy` and `usedAt` present with `createdAt ≤ usedAt`, and a record
with `used = false` has neither. -/
theorem reachable_record_invariant (t : Nat) (s : InviteStore) (h : Reachable t s)
    (tok : String) (r : InviteRecord) (hr : lookupTok s tok = some r) :
    (r.used = true →
      (∃ u, r.usedBy = some u) ∧ ∃ ua, r.usedAt = some ua ∧ r.createdAt ≤ ua) ∧
    (r.used = false → r.usedBy = none ∧ r.usedAt = none) := by
  obtain ⟨-, h2, h3⟩ := reachable_storeInv h tok r hr
  refine ⟨fun hu => ?_, h3⟩
  obtain ⟨hby, ua, hua, hc, -⟩ := h2 hu
  exact ⟨hby, ua, hua, hc⟩

/-- Witness for C5: a store reached by create-then-register satisfies the
invariant at its consumed record. -/
theorem reachable_record_invariant_witness :
    (∃ u, (⟨"", 0, true, some "Shop", some 5⟩ : InviteRecord).usedBy = some u) ∧
    ∃ ua, (⟨"", 0, true, some "Shop", some 5⟩ : InviteRecord).usedAt = some ua ∧
      (⟨"", 0, true, some "Shop", some 5⟩ : InviteRecord).createdAt ≤ ua := by
  have h0 : Reachable 0 ([] : InviteStore) := Reachable.init
  have h1 : Reachable 0 [("tok1", ⟨"", 0, false, none, none⟩)] :=
    Reachable.create (some "Bearer ") "" none "tok1" h0 rfl
  have h2 : Reachable 5 [("tok1", ⟨"", 0, false, none, none⟩)] :=
    Reachable.tick h1 (by omega)
  have h3 : Reachable 5 [("tok1", ⟨"", 0, true, some "Shop", some 5⟩)] :=
    Reachable.register
      ⟨some "tok1",
        some "aaaaaaaaaaaaaaaaaaaaaaaaaaaaaaaaaaaaaaaaaaaaaaaaaaaaaaaaaaaaaaaa",
        some "https://shop.example", some "Shop", none⟩ none "s1" h2
  exact (reachable_record_invariant 5 _ h3 "tok1" ⟨"", 0, true, some "Shop", some 5⟩
    (by decide)).1 rfl

end NostrBridge
